import Mathlib

/-!
Verification development for the `lex-luthor` repository: a shallow embedding
of its two JavaScript source components (the character/token lexer "luthor"
and the recursive-descent parser "parsicle") together with theorems checking
the repository specification against this embedding.

Modelling conventions:
* JavaScript strings are `String`/`List Char`; the character stream state is an
  explicit `Cur` record (remaining characters plus position counters).
* JavaScript numbers produced by `parseFloat` on the digit runs scanned by the
  lexer are modelled as exact rationals (`ℚ`); every numeral appearing in the
  theorems below has an exact decimal form, on which the two models agree.
* Thrown exceptions are modelled with `Except Err`: `Err.ill` is the
  repository custom error type (carrying line/column/message) thrown by
  `CharStream.die`, and `Err.typeErr` models a JavaScript `TypeError`
  (property access on `null`).  `Err.fuel` is a model artifact of the fuel
  parameter that makes the recursive descent structurally terminating; it
  never occurs when enough fuel is supplied.
-/

set_option autoImplicit false

namespace Luthor

/-- Errors: the custom syntax error of the repository (line, column, message),
a JavaScript runtime `TypeError` (e.g. reading a property of `null`), and the
out-of-fuel marker of the embedding. -/
inductive Err where
  | ill (line : Nat) (col : Nat) (msg : String)
  | typeErr (msg : String)
  | fuel
  deriving DecidableEq, Repr

/-- `CharStream` state: remaining input characters plus the position counters
`pos` (index in the stream), `line` (1-based) and `col` (0-based position in
the line), exactly the three counters of the source `CharStream`. -/
structure Cur where
  rem : List Char
  pos : Nat
  line : Nat
  col : Nat
  deriving DecidableEq, Repr

/-- Initial cursor for a source document. -/
def mkCur (s : String) : Cur := ⟨s.data, 0, 1, 0⟩

/-- State effect of `CharStream.next()`: advance past one character, updating
`pos`/`line`/`col`.  As in the source, advancing at end of input still bumps
`pos` and `col` (JavaScript `charAt` out of range yields `""`, which is not a
newline). -/
def advCur (cur : Cur) : Cur :=
  match cur.rem with
  | [] => { cur with pos := cur.pos + 1, col := cur.col + 1 }
  | c :: rest =>
    if c = '\n' then { rem := rest, pos := cur.pos + 1, line := cur.line + 1, col := 0 }
    else { rem := rest, pos := cur.pos + 1, line := cur.line, col := cur.col + 1 }

/-- `CharStream.eof()`: true iff `peek()` yields the empty-string sentinel. -/
def eofC (cur : Cur) : Bool := cur.rem.isEmpty

/-- Tokens, combining the `type` tag and the `value` of the source token
objects.  `num` carries the rational model of the JavaScript number; all other
kinds carry their string value. -/
inductive Tok where
  | str (v : String)
  | num (v : ℚ)
  | id (v : String)
  | kw (v : String)
  | op (v : String)
  | punc (v : String)
  deriving DecidableEq, Repr

/-- The `type` tag string of a token, as in the source token objects. -/
def Tok.type : Tok → String
  | .str _ => "str"
  | .num _ => "num"
  | .id _ => "id"
  | .kw _ => "kw"
  | .op _ => "op"
  | .punc _ => "punc"

/-- The string `value` of a token when it has one (`num` tokens carry a
JavaScript number, which is never equal (`===`) to a string). -/
def Tok.svalue : Tok → Option String
  | .num _ => none
  | .str v | .id v | .kw v | .op v | .punc v => some v

/-- The string `value` of a token, defaulting to `""` for `num` tokens (only
used at places where the source reads `.value` of a non-numeric token). -/
def Tok.valueStr : Tok → String
  | .num _ => ""
  | .str v | .id v | .kw v | .op v | .punc v => v

/-- The fixed keyword set of the lexer. -/
def Keywords : List String := ["rule", "conform", "true", "false"]

namespace Matchers

def isWhiteSpace (c : Char) : Bool := c = ' ' || c = '\t' || c = '\n'

def isComment (c : Char) : Bool := c = '#'

def isNotEOL (c : Char) : Bool := c ≠ '\n'

def isStringBoundary (c : Char) : Bool := c = '"'

def isDigit (c : Char) : Bool := '0' ≤ c && c ≤ '9'

def isStartOfIdentifier (c : Char) : Bool :=
  ('a' ≤ c && c ≤ 'z') || ('A' ≤ c && c ≤ 'Z') || c = '_'

def isIdentifier (c : Char) : Bool :=
  isStartOfIdentifier c || isDigit c || c = '-' || c = '?' || c = '!'

def isPunctuation (c : Char) : Bool := (",:;()\x7b\x7d[]".data.contains c)

def isOperator (c : Char) : Bool := ("+-*/%=&|<>!~^".data.contains c)

def isKeyword (identifier : String) : Bool := Keywords.contains identifier

end Matchers

/-- Worker for `Values.readWhile`: structural recursion along the remaining
character list (always invoked with the first argument equal to `cur.rem`).
Returns the accumulated characters and the advanced cursor. -/
def readWhileGo (pred : Char → Bool) : List Char → Cur → List Char × Cur
  | [], cur => ([], cur)
  | c :: rest, cur =>
    if pred c then
      let res := readWhileGo pred rest (advCur cur)
      (c :: res.1, res.2)
    else ([], cur)

/-- `Values.readWhile`: accumulate characters while the predicate holds of the
peeked character. -/
def readWhile (pred : Char → Bool) (cur : Cur) : List Char × Cur :=
  readWhileGo pred cur.rem cur

/-- `Values.skipRestOfLine`: discard characters through end of line
(inclusive). -/
def skipRestOfLine (cur : Cur) : Cur :=
  advCur (readWhile Matchers.isNotEOL cur).2

/-- Digit run to natural number. -/
def digitsToNat (cs : List Char) : Nat :=
  cs.foldl (fun a c => a * 10 + (c.toNat - 48)) 0

/-- Model of JavaScript `parseFloat` on the digit-and-at-most-one-dot runs
produced by `readNumber`, as an exact rational
(`intpart.fracpart = (intpart * 10^k + fracpart) / 10^k`). -/
def parseFloatQ (cs : List Char) : ℚ :=
  let intPart := cs.takeWhile (fun c => c ≠ '.')
  let rest := cs.dropWhile (fun c => c ≠ '.')
  let fracPart := rest.drop 1
  mkRat (digitsToNat intPart * 10 ^ fracPart.length + digitsToNat fracPart)
    (10 ^ fracPart.length)

/-- Worker for `Values.readNumber`: the stateful `isNumeric` closure of the
source is the `hasDot` flag; a second `.` stops the scan without being
consumed.  Structural recursion along `cur.rem`. -/
def readNumberGo (hasDot : Bool) : List Char → Cur → List Char × Cur
  | [], cur => ([], cur)
  | c :: rest, cur =>
    if c = '.' then
      if hasDot then ([], cur)
      else
        let res := readNumberGo true rest (advCur cur)
        (c :: res.1, res.2)
    else if Matchers.isDigit c then
      let res := readNumberGo hasDot rest (advCur cur)
      (c :: res.1, res.2)
    else ([], cur)

/-- `Values.readNumber`: scan a digit run with at most one dot and parse it. -/
def readNumber (cur : Cur) : ℚ × Cur :=
  let res := readNumberGo false cur.rem cur
  (parseFloatQ res.1, res.2)

/-- `Values.readIdentifier`. -/
def readIdentifier (cur : Cur) : List Char × Cur :=
  readWhile Matchers.isIdentifier cur

/-- Worker for `Values.readString`: the while-loop of the source, with its
`escaped` flag.  On an unescaped string boundary the loop breaks (boundary
consumed, not accumulated); at end of input it exits silently. -/
def readStringGo (escaped : Bool) : List Char → Cur → List Char × Cur
  | [], cur => ([], cur)
  | c :: rest, cur =>
    let cur1 := advCur cur
    if escaped then
      let res := readStringGo false rest cur1
      (c :: res.1, res.2)
    else if c = '\\' then readStringGo true rest cur1
    else if Matchers.isStringBoundary c then ([], cur1)
    else
      let res := readStringGo false rest cur1
      (c :: res.1, res.2)

/-- `Values.readString`: NOTE the unconditional leading `stream.next()` of the
source, which consumes one further character after the opening boundary that
`readNextToken` has already consumed. -/
def readString (cur : Cur) : List Char × Cur :=
  let cur1 := advCur cur
  readStringGo false cur1.rem cur1

/-- `Values.readOperator`: maximal run of operator characters. -/
def readOperator (cur : Cur) : List Char × Cur :=
  readWhile Matchers.isOperator cur

/-- Decimal digits of the fractional part `r / d` (up to a fuel bound; exact
for the powers of ten produced by the lexer). -/
def fracDigits : Nat → Nat → Nat → String
  | 0, _, _ => ""
  | _ + 1, 0, _ => ""
  | k + 1, r, d =>
    let r10 := r * 10
    toString (r10 / d) ++ fracDigits k (r10 % d) d

/-- JavaScript number printing for the rationals produced by the lexer
(integers and finite decimal fractions). -/
def jsonNum (q : ℚ) : String :=
  let sign := if q.num < 0 then "-" else ""
  let n := q.num.natAbs
  let ip := n / q.den
  let r := n % q.den
  if r = 0 then sign ++ toString ip
  else sign ++ toString ip ++ "." ++ fracDigits 30 r q.den

/-- The JSON rendering of a token value (string values of the tokens appearing
in the theorems below contain no characters needing JSON escapes). -/
def jsonVal : Tok → String
  | .num q => jsonNum q
  | t => "\"" ++ t.valueStr ++ "\""

/-- `JSON.stringify(token, null, 2)` for a token object, as interpolated into
the parser error message of `die()`. -/
def jsonTok (t : Tok) : String :=
  "\x7b\n  \"type\": \"" ++ t.type ++ "\",\n  \"value\": " ++ jsonVal t ++ "\n\x7d"

/-- `JSON.stringify(x, null, 2)` where `x` is a token or `null`. -/
def jsonTokOpt : Option Tok → String
  | some t => jsonTok t
  | none => "null"

/-- Fuel-indexed `readNextToken`: the source recurses after discarding a
comment line; the recursion consumes at least the `#`, so fuel
`cur.rem.length + 1` always suffices (see `readNextToken`). -/
def readNextTokenF : Nat → Cur → Except Err (Option Tok × Cur)
  | 0, _ => .error .fuel
  | f + 1, cur =>
    let cur1 := (readWhile Matchers.isWhiteSpace cur).2
    match cur1.rem with
    | [] => .ok (none, cur1)
    | c :: _ =>
      if Matchers.isComment c then
        readNextTokenF f (skipRestOfLine cur1)
      else if Matchers.isStringBoundary c then
        -- advance past starting boundary, then read the string body
        let cur2 := advCur cur1
        let res := readString cur2
        .ok (some (Tok.str (String.mk res.1)), res.2)
      else if Matchers.isDigit c then
        let res := readNumber cur1
        .ok (some (Tok.num res.1), res.2)
      else if Matchers.isStartOfIdentifier c then
        let res := readIdentifier cur1
        let idStr := String.mk res.1
        if Matchers.isKeyword idStr then .ok (some (Tok.kw idStr), res.2)
        else .ok (some (Tok.id idStr), res.2)
      else if Matchers.isPunctuation c then
        .ok (some (Tok.punc (String.mk [c])), advCur cur1)
      else if Matchers.isOperator c then
        let res := readOperator cur1
        .ok (some (Tok.op (String.mk res.1)), res.2)
      else
        .error (.ill cur1.line cur1.col ("Illegal character at this position: " ++ String.mk [c]))

/-- `Luthor.readNextToken`, with always-sufficient fuel. -/
def readNextToken (cur : Cur) : Except Err (Option Tok × Cur) :=
  readNextTokenF (cur.rem.length + 1) cur

/-- Token stream state: the one-token lookahead cache (`current` in the
source, where `null` is both "empty cache" and "cached end marker", which the
source cannot distinguish) plus the character cursor. -/
structure LS where
  cache : Option Tok
  cur : Cur
  deriving DecidableEq, Repr

/-- Initial token-stream state for a source document. -/
def initLS (s : String) : LS := ⟨none, mkCur s⟩

/-- `Luthor.peek()`: return the cached token, reading and caching one if the
cache is empty. -/
def peekL (s : LS) : Except Err (Option Tok × LS) :=
  match s.cache with
  | some t => .ok (some t, s)
  | none =>
    match readNextToken s.cur with
    | .ok (ot, cur1) => .ok (ot, ⟨ot, cur1⟩)
    | .error e => .error e

/-- `Luthor.next()`: return the cached token (emptying the cache) or read a
fresh one. -/
def nextL (s : LS) : Except Err (Option Tok × LS) :=
  match s.cache with
  | some t => .ok (some t, ⟨none, s.cur⟩)
  | none =>
    match readNextToken s.cur with
    | .ok (ot, cur1) => .ok (ot, ⟨none, cur1⟩)
    | .error e => .error e

/-- `Luthor.eof()`: true iff `peek()` yields the end marker (note that the
call to `peek()` fills the lookahead cache, hence the state result). -/
def eofL (s : LS) : Except Err (Bool × LS) :=
  match peekL s with
  | .ok (ot, s1) => .ok (ot = none, s1)
  | .error e => .error e

/-- Repeatedly read tokens to the end of input (test harness for the lexer
alone; the parser pulls tokens lazily through `LS` instead). -/
def lexLoop : Nat → Cur → List Tok → Except Err (List Tok)
  | 0, _, _ => .error .fuel
  | f + 1, cur, acc =>
    match readNextToken cur with
    | .ok (none, _) => .ok acc
    | .ok (some t, cur1) => lexLoop f cur1 (acc ++ [t])
    | .error e => .error e

/-- Tokenize a whole document. -/
def tokenize (s : String) : Except Err (List Tok) :=
  lexLoop (s.length + 1) (mkCur s) []

end Luthor

namespace Parsicle

open Luthor

/-- AST nodes.  JavaScript stores plain token objects as AST leaves (and as
the elements of a rule parameter list), and the raw number `-1` as the left
operand produced by `signed()`; `tok` and `numLit` inject those values into
the node universe.  `Nodes.bool` exists in the source, hence the `bool`
variant. -/
inductive Node where
  | tok (t : Tok)
  | numLit (v : ℚ)
  | block (body : List Node)
  | call (func : Node) (args : List Node)
  | rule (name : Option String) (args : List Node) (body : Node)
  | binE (op : String) (left : Node) (right : Node)
  | assign (op : String) (left : Node) (right : Node)
  | bool (value : Bool)

mutual

/-- Rendering of a node (for readability of the development only). -/
def nodeStr : Node → String
  | .tok t => "tok(" ++ t.type ++ " " ++ t.valueStr ++ ")"
  | .numLit v => "numLit(" ++ Luthor.jsonNum v ++ ")"
  | .block body => "block[" ++ nodeListStr body ++ "]"
  | .call f args => "call(" ++ nodeStr f ++ ")[" ++ nodeListStr args ++ "]"
  | .rule n args b =>
    "rule(" ++ (match n with | some s => s | none => "_") ++ ")[" ++
      nodeListStr args ++ "]" ++ "(" ++ nodeStr b ++ ")"
  | .binE op l r => "binE(" ++ op ++ "," ++ nodeStr l ++ "," ++ nodeStr r ++ ")"
  | .assign op l r => "assign(" ++ op ++ "," ++ nodeStr l ++ "," ++ nodeStr r ++ ")"
  | .bool b => "bool(" ++ toString b ++ ")"

/-- Rendering of a node list. -/
def nodeListStr : List Node → String
  | [] => ""
  | [n] => nodeStr n
  | n :: rest => nodeStr n ++ ", " ++ nodeListStr rest

end

instance : Repr Node := ⟨fun n _ => nodeStr n⟩

namespace Nodes

/-- `Nodes.blockStatement`. -/
def blockStatement (body : List Node) : Node := Node.block body

/-- `Nodes.invocation`. -/
def invocation (node : Node) (args : List Node) : Node := Node.call node args

/-- `Nodes.rule` (`name` is `undefined` for anonymous rules). -/
def rule (name : Option String) (args : List Node) (body : Node) : Node :=
  Node.rule name args body

/-- `Nodes.binaryExpression`: type tag `assign` when the operator is `=`,
`binaryExpression` otherwise. -/
def binaryExpression (op : String) (left right : Node) : Node :=
  if op = "=" then Node.assign op left right else Node.binE op left right

/-- `Nodes.bool` (never called by the parser, see claim C10). -/
def bool (value : Bool) : Node := Node.bool value

end Nodes

/-- `Types.checkTypeAndValue`: false for a `null` token; otherwise the type
tags must agree and, when a value is supplied, it must equal the token value
(a JavaScript number value is never `===` to a string). -/
def checkTypeAndValue (token : Option Tok) (ty : String) (value : Option String) : Bool :=
  match token with
  | none => false
  | some t => ty = t.type && (value.isNone || value = t.svalue)

/-- Message of the JavaScript `TypeError` raised when `token.type` is read
from `null` in `Types.isOneOfType`. -/
def nullTypeMsg : String := "Cannot read properties of null (reading type)"

/-- `Types.isOneOfType`: reads `token.type`, so a `null` token raises a
`TypeError` rather than returning false. -/
def isOneOfTypeE (token : Option Tok) (types : List String) : Except Err Bool :=
  match token with
  | none => .error (.typeErr nullTypeMsg)
  | some t => .ok (types.contains t.type)

/-- The operator binding-power table.  Looking up an operator string that is
not in the table yields `none` (JavaScript `undefined`, and
`undefined > n` is false). -/
def PRECEDENCE : String → Option Nat
  | "=" => some 1
  | "||" => some 5
  | "&&" => some 10
  | "<" => some 15
  | ">" => some 15
  | "<=" => some 15
  | ">=" => some 15
  | "==" => some 15
  | "!=" => some 15
  | "+" => some 20
  | "-" => some 20
  | "*" => some 25
  | "/" => some 25
  | "%" => some 25
  | _ => none

/-- The parser computation monad: token-stream state threaded through
`Except Err` (the source mutates a shared stream object and throws). -/
abbrev PM (α : Type) := StateT LS (Except Err) α

/-- `stream.peek()` in the parser. -/
def peekP : PM (Option Tok) := peekL

/-- `stream.next()` in the parser. -/
def nextP : PM (Option Tok) := nextL

/-- `stream.eof()` in the parser. -/
def eofP : PM Bool := eofL

/-- `stream.die(msg)`: throw the syntax error at the current character-cursor
line/column. -/
def dieP {α : Type} (msg : String) : PM α :=
  fun s => .error (.ill s.cur.line s.cur.col msg)

/-- Lift a pure `Except` computation (no state effect). -/
def liftE {α : Type} (e : Except Err α) : PM α :=
  fun s => match e with
  | .ok a => .ok (a, s)
  | .error err => .error err

/-- Out-of-fuel marker of the embedding (never reached with enough fuel). -/
def fuelOut {α : Type} : PM α := fun _ => .error .fuel

/-- `expectIdentifier`: die unless the peeked token is an identifier, else
consume and return it (the consumed token equals the peeked one, since `next`
returns the cached token). -/
def expectIdentifierP : PM Tok := do
  let token ← peekP
  match token with
  | some t =>
    if checkTypeAndValue (some t) "id" none then do
      let _ ← nextP
      pure t
    else dieP "Expected an identifier"
  | none => dieP "Expected an identifier"

/-- JSON rendering of a string list, as in
`JSON.stringify(["-","+"])`. -/
def jsonStrList (l : List String) : String :=
  "[" ++ String.intercalate "," (l.map (fun s => "\"" ++ s ++ "\"")) ++ "]"

/-- `expectOps`: die unless the peeked token is an operator with a value among
`operators`, else consume and return it. -/
def expectOpsP (operators : List String) : PM Tok := do
  let token ← peekP
  match token with
  | some (Tok.op v) =>
    if operators.contains v then do
      let _ ← nextP
      pure (Tok.op v)
    else dieP ("Expected one of these operators: " ++ jsonStrList operators)
  | _ => dieP ("Expected one of these operators: " ++ jsonStrList operators)

/-- `expectPunc`: die unless the peeked token is the given punctuation, else
consume it. -/
def expectPuncP (c : String) : PM (Option Tok) := do
  let token ← peekP
  if checkTypeAndValue token "punc" (some c) then nextP
  else dieP ("Expected \"" ++ c ++ "\"")

/-- `die()`: the catch-all parser error, interpolating
`JSON.stringify(stream.peek(), null, 2)`. -/
def dieUnexpectedP {α : Type} : PM α := do
  let token ← peekP
  dieP ("Unexpected token: " ++ jsonTokOpt token)

/-- Loop of `delimited` specialised to `parserFn = expectIdentifier` (the rule
parameter list); the source `delimited` is one higher-order function, split
here into its two instantiations so that the recursion is structural on the
fuel.  Identifier tokens are pushed as `Node.tok`, mirroring the token objects
stored in `rule.args`. -/
def delimIdLoopP : Nat → String → String → Bool → List Node → PM (List Node)
  | 0, _, _, _, _ => fuelOut
  | f + 1, stop, separator, first, body => do
    let e ← eofP
    if e then pure body
    else do
      let token ← peekP
      if checkTypeAndValue token "punc" (some stop) then pure body
      else do
        let _ ← (if first then (pure () : PM Unit)
                 else do let _ ← expectPuncP separator; pure ())
        let t2 ← peekP
        if checkTypeAndValue t2 "punc" (some stop) then pure body
        else do
          let x ← expectIdentifierP
          delimIdLoopP f stop separator false (body ++ [Node.tok x])

/-- `delimited(start, stop, separator, expectIdentifier)`. -/
def delimitedIdP (f : Nat) (start stop separator : String) : PM (List Node) := do
  let _ ← expectPuncP start
  let body ← delimIdLoopP f stop separator true []
  let _ ← expectPuncP stop
  pure body

mutual

/-- `expression()`: `handleInvocation(() => resolveOperatorBindings(discrete(), 0))`. -/
def expressionP : Nat → PM Node
  | 0 => fuelOut
  | f + 1 => do
    let d ← discreteP f
    let n ← resolveOpP f d 0
    invokeP f n

/-- `parenthetical()`. -/
def parentheticalP : Nat → PM Node
  | 0 => fuelOut
  | f + 1 => do
    let _ ← expectPuncP "("
    let exp ← expressionP f
    let _ ← expectPuncP ")"
    pure exp

/-- `block()`: a single-statement body collapses to that statement. -/
def blockP : Nat → PM Node
  | 0 => fuelOut
  | f + 1 => do
    let body ← delimitedExprP f "\x7b" "\x7d" ";"
    match body with
    | [b] => pure b
    | _ => pure (Nodes.blockStatement body)

/-- `rule()`: optional name, mandatory parenthesised parameter list,
mandatory block body. -/
def ruleP : Nat → PM Node
  | 0 => fuelOut
  | f + 1 => do
    let _ ← nextP  -- advance past the "rule" keyword
    let t ← peekP
    let name : Option String ←
      if checkTypeAndValue t "id" none then do
        let tk ← expectIdentifierP
        pure (some tk.valueStr)
      else pure none
    let t2 ← peekP
    let _ ← (if checkTypeAndValue t2 "punc" (some "(") then (pure () : PM Unit)
             else dieP "Missing argument list for rule declaration")
    let args ← delimitedIdP f "(" ")" ","
    let t3 ← peekP
    let _ ← (if checkTypeAndValue t3 "punc" (some "\x7b") then (pure () : PM Unit)
             else dieP "Missing body for rule declaration")
    let body ← blockP f
    pure (Nodes.rule name args body)

/-- `signed()`: `-` desugars to `BinaryExpr(*, -1, discrete())`.  The check
`Types.isOneOfType(token, ["num","id"])` reads `token.type` and therefore
raises a `TypeError` when the peeked token is the `null` end marker. -/
def signedP : Nat → PM Node
  | 0 => fuelOut
  | f + 1 => do
    let sign ← expectOpsP ["-", "+"]
    let token ← peekP
    let _ ← (if checkTypeAndValue token "punc" (some "(") then (pure () : PM Unit)
             else do
               let b ← liftE (isOneOfTypeE token ["num", "id"])
               if b then pure () else dieP "Expected signed expression")
    if sign.valueStr = "-" then do
      let d ← discreteP f
      pure (Nodes.binaryExpression "*" (Node.numLit (mkRat (-1) 1)) d)
    else discreteP f

/-- `discrete()`: dispatch on the peeked token, wrapped in
`handleInvocation`.  The final `Types.isOneOfType(current, ["num","str","id"])`
raises a `TypeError` when the peeked token is the `null` end marker. -/
def discreteP : Nat → PM Node
  | 0 => fuelOut
  | f + 1 => do
    let node ← (do
      let current ← peekP
      if checkTypeAndValue current "punc" (some "(") then parentheticalP f
      else if checkTypeAndValue current "punc" (some "\x7b") then blockP f
      else if checkTypeAndValue current "kw" (some "rule") then ruleP f
      else if checkTypeAndValue current "op" (some "-") ||
              checkTypeAndValue current "op" (some "+") then signedP f
      else do
        let b ← liftE (isOneOfTypeE current ["num", "str", "id"])
        if b then do
          let t ← nextP
          match t with
          | some tk => pure (Node.tok tk)
          | none => dieUnexpectedP  -- unreachable: `current` is a token here
        else dieUnexpectedP)
    invokeP f node

/-- The trailing-`(`-check of `handleInvocation`: wrap the node in a `Call`
when an argument list follows immediately. -/
def invokeP : Nat → Node → PM Node
  | 0, _ => fuelOut
  | f + 1, node => do
    let t ← peekP
    if checkTypeAndValue t "punc" (some "(") then do
      let args ← delimitedExprP f "(" ")" ","
      pure (Nodes.invocation node args)
    else pure node

/-- `resolveOperatorBindings`: precedence climbing; an operator string absent
from `PRECEDENCE` compares as not-greater and terminates the climb. -/
def resolveOpP : Nat → Node → Nat → PM Node
  | 0, _, _ => fuelOut
  | f + 1, leftNode, thisPrecedence => do
    let token ← peekP
    match token with
    | some (Tok.op op) =>
      match PRECEDENCE op with
      | some thatPrecedence =>
        if thisPrecedence < thatPrecedence then do
          let _ ← nextP  -- advance past operator
          let d ← discreteP f
          let rightNode ← resolveOpP f d thatPrecedence
          resolveOpP f (Nodes.binaryExpression op leftNode rightNode) thisPrecedence
        else pure leftNode
      | none => pure leftNode
    | _ => pure leftNode

/-- Loop of `delimited` specialised to `parserFn = expression` (block bodies
and invocation argument lists). -/
def delimLoopP : Nat → String → String → Bool → List Node → PM (List Node)
  | 0, _, _, _, _ => fuelOut
  | f + 1, stop, separator, first, body => do
    let e ← eofP
    if e then pure body
    else do
      let token ← peekP
      if checkTypeAndValue token "punc" (some stop) then pure body
      else do
        let _ ← (if first then (pure () : PM Unit)
                 else do let _ ← expectPuncP separator; pure ())
        let t2 ← peekP
        if checkTypeAndValue t2 "punc" (some stop) then pure body
        else do
          let x ← expressionP f
          delimLoopP f stop separator false (body ++ [x])

/-- `delimited(start, stop, separator, expression)`. -/
def delimitedExprP : Nat → String → String → String → PM (List Node)
  | 0, _, _, _ => fuelOut
  | f + 1, start, stop, separator => do
    let _ ← expectPuncP start
    let body ← delimLoopP f stop separator true []
    let _ ← expectPuncP stop
    pure body

/-- The `while (!stream.eof())` loop of `parse()`: note that the separator
check comes AFTER pushing the next expression (see claim C1). -/
def parseLoopP : Nat → List Node → PM (List Node)
  | 0, _ => fuelOut
  | f + 1, ast => do
    let e ← eofP
    if e then pure ast
    else do
      let n ← expressionP f
      let e2 ← eofP
      if e2 then parseLoopP f (ast ++ [n])
      else do
        let _ ← expectPuncP ";"
        parseLoopP f (ast ++ [n])

end

/-- `parse()`: one unconditional leading expression, then the loop. -/
def parseP (f : Nat) : PM (List Node) := do
  let n ← expressionP f
  parseLoopP f [n]

/-- Parse a whole document (enough fuel for any input of its length). -/
def runParse (input : String) : Except Err (List Node) :=
  (parseP (input.length + 16) (initLS input)).map Prod.fst

/-- Application of a bound parser computation to a state: run the first
computation and feed its value and state to the continuation, propagating
errors. -/
theorem pm_bind {α β : Type} (m : PM α) (k : α → PM β) (s : LS) :
    (m >>= k) s = match m s with
      | .ok p => k p.1 p.2
      | .error e => .error e := by
  show Except.bind (m s) _ = _
  cases h : m s <;> rfl

/-- Application of a pure parser computation to a state. -/
theorem pm_pure {α : Type} (a : α) (s : LS) : (pure a : PM α) s = .ok (a, s) := rfl

mutual

/-- True iff no `bool` node occurs anywhere in the tree (claim C10: the
parser never calls `Nodes.bool`). -/
def boolFree : Node → Bool
  | .tok _ => true
  | .numLit _ => true
  | .block body => boolFreeList body
  | .call f args => boolFree f && boolFreeList args
  | .rule _ args b => boolFreeList args && boolFree b
  | .binE _ l r => boolFree l && boolFree r
  | .assign _ l r => boolFree l && boolFree r
  | .bool _ => false

/-- `boolFree` on every node of a list. -/
def boolFreeList : List Node → Bool
  | [] => true
  | n :: rest => boolFree n && boolFreeList rest

end

/-- Inversion of a successful bound computation: the first component
succeeded and the continuation succeeded from its resulting state. -/
theorem pm_bind_ok {α β : Type} {m : PM α} {k : α → PM β} {s : LS} {r : β × LS}
    (h : (m >>= k) s = .ok r) : ∃ a s1, m s = .ok (a, s1) ∧ k a s1 = .ok r := by
  rw [pm_bind] at h
  cases hm : m s with
  | ok p =>
    obtain ⟨a, s1⟩ := p
    rw [hm] at h
    exact ⟨a, s1, rfl, h⟩
  | error e =>
    rw [hm] at h
    simp at h

/-- Inversion of a successful conditional computation. -/
theorem pm_ite_ok {α : Type} {c : Prop} [Decidable c] {m m' : PM α} {s : LS} {r : α × LS}
    (h : (if c then m else m') s = .ok r) :
    (c ∧ m s = .ok r) ∨ (¬c ∧ m' s = .ok r) := by
  split at h
  · exact Or.inl ⟨‹_›, h⟩
  · exact Or.inr ⟨‹_›, h⟩

/-- Inversion of a successful pure computation. -/
theorem pm_pure_ok {α : Type} {a : α} {s : LS} {r : α × LS}
    (h : (pure a : PM α) s = .ok r) : r = (a, s) := by
  rw [pm_pure] at h
  exact ((Except.ok.injEq _ _).mp h).symm

/-- The catch-all `die()` never succeeds. -/
theorem dieUnexpectedP_ne_ok {α : Type} {s : LS} {r : α × LS} :
    dieUnexpectedP s ≠ .ok r := by
  intro h
  unfold dieUnexpectedP at h
  rw [pm_bind] at h
  cases hp : peekP s with
  | ok p =>
    rw [hp] at h
    simp [dieP] at h
  | error e =>
    rw [hp] at h
    simp at h

/-- `die` never succeeds. -/
theorem dieP_ne_ok {α : Type} {msg : String} {s : LS} {r : α × LS} :
    dieP (α := α) msg s ≠ .ok r := by
  intro h
  simp [dieP] at h

/-- `binaryExpression` preserves bool-freeness (both the `assign` and the
`binaryExpression` shapes). -/
theorem boolFree_binaryExpression {op : String} {l r : Node}
    (hl : boolFree l = true) (hr : boolFree r = true) :
    boolFree (Nodes.binaryExpression op l r) = true := by
  unfold Nodes.binaryExpression
  split <;> simp [boolFree, hl, hr]

/-- `blockStatement` preserves bool-freeness. -/
theorem boolFree_blockStatement {body : List Node}
    (h : boolFreeList body = true) : boolFree (Nodes.blockStatement body) = true := by
  simpa [Nodes.blockStatement, boolFree] using h

/-- `invocation` preserves bool-freeness. -/
theorem boolFree_invocation {n : Node} {args : List Node}
    (hn : boolFree n = true) (ha : boolFreeList args = true) :
    boolFree (Nodes.invocation n args) = true := by
  simp [Nodes.invocation, boolFree, hn, ha]

/-- `rule` preserves bool-freeness. -/
theorem boolFree_rule {name : Option String} {args : List Node} {b : Node}
    (ha : boolFreeList args = true) (hb : boolFree b = true) :
    boolFree (Nodes.rule name args b) = true := by
  simp [Nodes.rule, boolFree, ha, hb]

/-- Appending a bool-free node to a bool-free list. -/
theorem boolFreeList_append {a : List Node} {n : Node}
    (ha : boolFreeList a = true) (hn : boolFree n = true) :
    boolFreeList (a ++ [n]) = true := by
  induction a with
  | nil => simp [boolFreeList, hn]
  | cons x rest ih =>
    rw [boolFreeList, Bool.and_eq_true] at ha
    rw [List.cons_append, boolFreeList, Bool.and_eq_true]
    exact ⟨ha.1, ih ha.2⟩

/-- The elements of a lexed rule parameter list are identifier tokens, hence
bool-free. -/
theorem delimIdLoopP_boolFree :
    ∀ (f : Nat) (stop sep : String) (fr : Bool) (acc : List Node) (s : LS)
      (r : List Node × LS),
      delimIdLoopP f stop sep fr acc s = .ok r → boolFreeList acc = true →
      boolFreeList r.1 = true := by
  intro f
  induction f with
  | zero =>
    intro stop sep fr acc s r h hacc
    simp [delimIdLoopP, fuelOut] at h
  | succ f ih =>
    intro stop sep fr acc s r h hacc
    rw [delimIdLoopP] at h
    obtain ⟨e, s1, h1, h⟩ := pm_bind_ok h
    rcases pm_ite_ok h with ⟨-, h⟩ | ⟨-, h⟩
    · cases pm_pure_ok h
      exact hacc
    · obtain ⟨token, s2, h2, h⟩ := pm_bind_ok h
      rcases pm_ite_ok h with ⟨-, h⟩ | ⟨-, h⟩
      · cases pm_pure_ok h
        exact hacc
      · obtain ⟨u, s3, h3, h⟩ := pm_bind_ok h
        obtain ⟨t2, s4, h4, h⟩ := pm_bind_ok h
        rcases pm_ite_ok h with ⟨-, h⟩ | ⟨-, h⟩
        · cases pm_pure_ok h
          exact hacc
        · obtain ⟨x, s5, h5, h⟩ := pm_bind_ok h
          exact ih _ _ _ _ _ _ h (boolFreeList_append hacc rfl)

/-- The rule parameter list parser yields only identifier-token nodes. -/
theorem delimitedIdP_boolFree {f : Nat} {start stop sep : String} {s : LS}
    {r : List Node × LS} (h : delimitedIdP f start stop sep s = .ok r) :
    boolFreeList r.1 = true := by
  unfold delimitedIdP at h
  obtain ⟨u1, s1, h1, h⟩ := pm_bind_ok h
  obtain ⟨body, s2, h2, h⟩ := pm_bind_ok h
  obtain ⟨u2, s3, h3, h⟩ := pm_bind_ok h
  cases pm_pure_ok h
  have hb := delimIdLoopP_boolFree _ _ _ _ _ _ _ h2 rfl
  exact hb

/-- Induction statement: every node produced by any of the mutually recursive
parser functions at a given fuel is bool-free (`Nodes.bool` is never
called). -/
def ParserBoolFree (f : Nat) : Prop :=
  (∀ s r, expressionP f s = .ok r → boolFree r.1 = true) ∧
  (∀ s r, parentheticalP f s = .ok r → boolFree r.1 = true) ∧
  (∀ s r, blockP f s = .ok r → boolFree r.1 = true) ∧
  (∀ s r, ruleP f s = .ok r → boolFree r.1 = true) ∧
  (∀ s r, signedP f s = .ok r → boolFree r.1 = true) ∧
  (∀ s r, discreteP f s = .ok r → boolFree r.1 = true) ∧
  (∀ n p s r, resolveOpP f n p s = .ok r → boolFree n = true → boolFree r.1 = true) ∧
  (∀ n s r, invokeP f n s = .ok r → boolFree n = true → boolFree r.1 = true) ∧
  (∀ stop sep fr acc s r, delimLoopP f stop sep fr acc s = .ok r →
    boolFreeList acc = true → boolFreeList r.1 = true) ∧
  (∀ start stop sep s r, delimitedExprP f start stop sep s = .ok r →
    boolFreeList r.1 = true) ∧
  (∀ acc s r, parseLoopP f acc s = .ok r → boolFreeList acc = true →
    boolFreeList r.1 = true)

/-- The parser never constructs a `bool` node, at any fuel. -/
theorem parserBoolFree : ∀ f, ParserBoolFree f := by
  intro f
  induction f with
  | zero =>
    unfold ParserBoolFree
    refine ⟨?_, ?_, ?_, ?_, ?_, ?_, ?_, ?_, ?_, ?_, ?_⟩
    · intro s r h
      simp [expressionP, fuelOut] at h
    · intro s r h
      simp [parentheticalP, fuelOut] at h
    · intro s r h
      simp [blockP, fuelOut] at h
    · intro s r h
      simp [ruleP, fuelOut] at h
    · intro s r h
      simp [signedP, fuelOut] at h
    · intro s r h
      simp [discreteP, fuelOut] at h
    · intro n p s r h
      simp [resolveOpP, fuelOut] at h
    · intro n s r h
      simp [invokeP, fuelOut] at h
    · intro stop sep fr acc s r h
      simp [delimLoopP, fuelOut] at h
    · intro start stop sep s r h
      simp [delimitedExprP, fuelOut] at h
    · intro acc s r h
      simp [parseLoopP, fuelOut] at h
  | succ f ih =>
    unfold ParserBoolFree at ih
    obtain ⟨ihE, ihPar, ihB, ihR, ihS, ihD, ihRO, ihI, ihDL, ihDE, ihPL⟩ := ih
    unfold ParserBoolFree
    refine ⟨?_, ?_, ?_, ?_, ?_, ?_, ?_, ?_, ?_, ?_, ?_⟩
    · -- expressionP
      intro s r h
      simp only [expressionP] at h
      obtain ⟨d, s1, h1, h⟩ := pm_bind_ok h
      obtain ⟨n, s2, h2, h⟩ := pm_bind_ok h
      have hd := ihD _ _ h1
      have hn := ihRO _ _ _ _ h2 hd
      have := ihI _ _ _ h hn
      exact this
    · -- parentheticalP
      intro s r h
      simp only [parentheticalP] at h
      obtain ⟨u1, s1, h1, h⟩ := pm_bind_ok h
      obtain ⟨exp, s2, h2, h⟩ := pm_bind_ok h
      obtain ⟨u2, s3, h3, h⟩ := pm_bind_ok h
      cases pm_pure_ok h
      have := ihE _ _ h2
      exact this
    · -- blockP
      intro s r h
      simp only [blockP] at h
      obtain ⟨body, s1, h1, h⟩ := pm_bind_ok h
      have hbody := ihDE _ _ _ _ _ h1
      cases body with
      | nil =>
        cases pm_pure_ok h
        exact boolFree_blockStatement hbody
      | cons b rest =>
        cases rest with
        | nil =>
          cases pm_pure_ok h
          rw [boolFreeList, Bool.and_eq_true] at hbody
          exact hbody.1
        | cons c rest2 =>
          cases pm_pure_ok h
          exact boolFree_blockStatement hbody
    · -- ruleP (the optional-name conditional is elaborated with the rest of
      -- the body inlined in both branches, hence the case split first)
      intro s r h
      simp only [ruleP] at h
      obtain ⟨u0, s1, h1, h⟩ := pm_bind_ok h
      obtain ⟨t, s2, h2, h⟩ := pm_bind_ok h
      rcases pm_ite_ok h with ⟨-, h⟩ | ⟨-, h⟩
      · obtain ⟨tk, s2a, h2a, h⟩ := pm_bind_ok h
        obtain ⟨name, s3, h3, h⟩ := pm_bind_ok h
        obtain ⟨t2, s4, h4, h⟩ := pm_bind_ok h
        obtain ⟨u1, s5, h5, h⟩ := pm_bind_ok h
        obtain ⟨args, s6, h6, h⟩ := pm_bind_ok h
        obtain ⟨t3, s7, h7, h⟩ := pm_bind_ok h
        obtain ⟨u2, s8, h8, h⟩ := pm_bind_ok h
        obtain ⟨body, s9, h9, h⟩ := pm_bind_ok h
        cases pm_pure_ok h
        exact boolFree_rule (delimitedIdP_boolFree h6) (ihB _ _ h9)
      · obtain ⟨name, s3, h3, h⟩ := pm_bind_ok h
        obtain ⟨t2, s4, h4, h⟩ := pm_bind_ok h
        obtain ⟨u1, s5, h5, h⟩ := pm_bind_ok h
        obtain ⟨args, s6, h6, h⟩ := pm_bind_ok h
        obtain ⟨t3, s7, h7, h⟩ := pm_bind_ok h
        obtain ⟨u2, s8, h8, h⟩ := pm_bind_ok h
        obtain ⟨body, s9, h9, h⟩ := pm_bind_ok h
        cases pm_pure_ok h
        exact boolFree_rule (delimitedIdP_boolFree h6) (ihB _ _ h9)
    · -- signedP
      intro s r h
      simp only [signedP] at h
      obtain ⟨sign, s1, h1, h⟩ := pm_bind_ok h
      obtain ⟨token, s2, h2, h⟩ := pm_bind_ok h
      obtain ⟨u, s3, h3, h⟩ := pm_bind_ok h
      rcases pm_ite_ok h with ⟨-, h⟩ | ⟨-, h⟩
      · obtain ⟨d, s4, h4, h⟩ := pm_bind_ok h
        cases pm_pure_ok h
        have hd := ihD _ _ h4
        show boolFree (Nodes.binaryExpression "*" (Node.numLit (mkRat (-1) 1)) d) = true
        exact boolFree_binaryExpression rfl hd
      · have := ihD _ _ h
        exact this
    · -- discreteP
      intro s r h
      simp only [discreteP] at h
      obtain ⟨node, s1, hN, h⟩ := pm_bind_ok h
      refine ihI _ _ _ h ?_
      obtain ⟨current, s2, hP, hN⟩ := pm_bind_ok hN
      rcases pm_ite_ok hN with ⟨-, hN⟩ | ⟨-, hN⟩
      · have := ihPar _ _ hN
        exact this
      · rcases pm_ite_ok hN with ⟨-, hN⟩ | ⟨-, hN⟩
        · have := ihB _ _ hN
          exact this
        · rcases pm_ite_ok hN with ⟨-, hN⟩ | ⟨-, hN⟩
          · have := ihR _ _ hN
            exact this
          · rcases pm_ite_ok hN with ⟨-, hN⟩ | ⟨-, hN⟩
            · have := ihS _ _ hN
              exact this
            · obtain ⟨b, s3, hB2, hN⟩ := pm_bind_ok hN
              rcases pm_ite_ok hN with ⟨-, hN⟩ | ⟨-, hN⟩
              · obtain ⟨t, s4, hT, hN⟩ := pm_bind_ok hN
                cases t with
                | some tk =>
                  have h5 := pm_pure_ok hN
                  injection h5 with h6 h7
                  rw [h6]
                  rfl
                | none => exact absurd hN dieUnexpectedP_ne_ok
              · exact absurd hN dieUnexpectedP_ne_ok
    · -- resolveOpP
      intro n p s r h hn
      simp only [resolveOpP] at h
      obtain ⟨token, s1, h1, h⟩ := pm_bind_ok h
      cases token with
      | none =>
        cases pm_pure_ok h
        exact hn
      | some tk =>
        cases tk with
        | op v =>
          dsimp only at h
          cases hp : PRECEDENCE v with
          | none =>
            rw [hp] at h
            cases pm_pure_ok h
            exact hn
          | some tp =>
            rw [hp] at h
            rcases pm_ite_ok h with ⟨-, h⟩ | ⟨-, h⟩
            · obtain ⟨u, s2, h2, h⟩ := pm_bind_ok h
              obtain ⟨d, s3, h3, h⟩ := pm_bind_ok h
              obtain ⟨rn, s4, h4, h⟩ := pm_bind_ok h
              have hd := ihD _ _ h3
              have hrn := ihRO _ _ _ _ h4 hd
              have := ihRO _ _ _ _ h (boolFree_binaryExpression hn hrn)
              exact this
            · cases pm_pure_ok h
              exact hn
        | str v =>
          cases pm_pure_ok h
          exact hn
        | num v =>
          cases pm_pure_ok h
          exact hn
        | id v =>
          cases pm_pure_ok h
          exact hn
        | kw v =>
          cases pm_pure_ok h
          exact hn
        | punc v =>
          cases pm_pure_ok h
          exact hn
    · -- invokeP
      intro n s r h hn
      simp only [invokeP] at h
      obtain ⟨t, s1, h1, h⟩ := pm_bind_ok h
      rcases pm_ite_ok h with ⟨-, h⟩ | ⟨-, h⟩
      · obtain ⟨args, s2, h2, h⟩ := pm_bind_ok h
        cases pm_pure_ok h
        have hargs := ihDE _ _ _ _ _ h2
        exact boolFree_invocation hn hargs
      · cases pm_pure_ok h
        exact hn
    · -- delimLoopP
      intro stop sep fr acc s r h hacc
      simp only [delimLoopP] at h
      obtain ⟨e, s1, h1, h⟩ := pm_bind_ok h
      rcases pm_ite_ok h with ⟨-, h⟩ | ⟨-, h⟩
      · cases pm_pure_ok h
        exact hacc
      · obtain ⟨token, s2, h2, h⟩ := pm_bind_ok h
        rcases pm_ite_ok h with ⟨-, h⟩ | ⟨-, h⟩
        · cases pm_pure_ok h
          exact hacc
        · obtain ⟨u, s3, h3, h⟩ := pm_bind_ok h
          obtain ⟨t2, s4, h4, h⟩ := pm_bind_ok h
          rcases pm_ite_ok h with ⟨-, h⟩ | ⟨-, h⟩
          · cases pm_pure_ok h
            exact hacc
          · obtain ⟨x, s5, h5, h⟩ := pm_bind_ok h
            have hx := ihE _ _ h5
            have := ihDL _ _ _ _ _ _ h (boolFreeList_append hacc hx)
            exact this
    · -- delimitedExprP
      intro start stop sep s r h
      simp only [delimitedExprP] at h
      obtain ⟨u1, s1, h1, h⟩ := pm_bind_ok h
      obtain ⟨body, s2, h2, h⟩ := pm_bind_ok h
      obtain ⟨u2, s3, h3, h⟩ := pm_bind_ok h
      cases pm_pure_ok h
      have := ihDL _ _ _ _ _ _ h2 rfl
      exact this
    · -- parseLoopP
      intro acc s r h hacc
      simp only [parseLoopP] at h
      obtain ⟨e, s1, h1, h⟩ := pm_bind_ok h
      rcases pm_ite_ok h with ⟨-, h⟩ | ⟨-, h⟩
      · cases pm_pure_ok h
        exact hacc
      · obtain ⟨n, s2, h2, h⟩ := pm_bind_ok h
        obtain ⟨e2, s3, h3, h⟩ := pm_bind_ok h
        have hn := ihE _ _ h2
        rcases pm_ite_ok h with ⟨-, h⟩ | ⟨-, h⟩
        · have := ihPL _ _ _ h (boolFreeList_append hacc hn)
          exact this
        · obtain ⟨u, s4, h4, h⟩ := pm_bind_ok h
          have := ihPL _ _ _ h (boolFreeList_append hacc hn)
          exact this

/-- `parse()` produces only bool-free trees. -/
theorem parseP_boolFree {f : Nat} {s : LS} {r : List Node × LS}
    (h : parseP f s = .ok r) : boolFreeList r.1 = true := by
  unfold parseP at h
  obtain ⟨n, s1, h1, h⟩ := pm_bind_ok h
  have hn := (parserBoolFree f).1 _ _ h1
  have hPL := (parserBoolFree f).2.2.2.2.2.2.2.2.2.2
  have hlist : boolFreeList [n] = true := by
    rw [boolFreeList, boolFreeList, Bool.and_true]
    exact hn
  have := hPL _ _ _ h hlist
  exact this

/-- The `value` strings of the identifier tokens in a node list (used to read
a parsed rule parameter list as the sequence of parameter name strings). -/
def identValues (nodes : List Node) : List String :=
  nodes.filterMap (fun n => match n with
    | Node.tok (Tok.id s) => some s
    | _ => none)

/-- Line/column of a thrown syntax error, if any. -/
def errLineCol {α : Type} : Except Err α → Option (Nat × Nat)
  | .error (.ill l c _) => some (l, c)
  | _ => none

end Parsicle

namespace Luthor

/-- `dropWhile` never lengthens a list. -/
theorem dropWhile_length_le (p : Char → Bool) (l : List Char) :
    (l.dropWhile p).length ≤ l.length := by
  induction l with
  | nil => simp
  | cons c rest ih =>
    by_cases h : p c
    · simp [List.dropWhile_cons, h]
      omega
    · simp [List.dropWhile_cons, h]

/-- Characters dropped by a `#`-comment: the rest of the line and the newline
itself. -/
def skipLineChars (cs : List Char) : List Char :=
  (cs.dropWhile Matchers.isNotEOL).drop 1

/-- Formalisation of the claim-C5 input class: the document consists solely of
whitespace and `#`-comments (a `#` discards everything through end of
line). -/
def wsCommentOnly : List Char → Bool
  | [] => true
  | c :: rest =>
    if Matchers.isWhiteSpace c then wsCommentOnly rest
    else if Matchers.isComment c then wsCommentOnly (skipLineChars rest)
    else false
termination_by cs => cs.length
decreasing_by
  · simp
  · simp only [List.length_cons]
    have h1 : (skipLineChars rest).length ≤ rest.length := by
      unfold skipLineChars
      calc ((rest.dropWhile (fun c => c ≠ '\n')).drop 1).length
          ≤ (rest.dropWhile (fun c => c ≠ '\n')).length := by
            simp [List.length_drop]
        _ ≤ rest.length := dropWhile_length_le _ _
    omega

/-- Formalisation of the claim-C8 hypothesis: scanning with the backslash
escape rule (a backslash makes the following character literal), no unescaped
string boundary `"` occurs in the character list. -/
def scanNoClose : Bool → List Char → Bool
  | _, [] => true
  | true, _ :: rest => scanNoClose false rest
  | false, c :: rest =>
    if c = '\\' then scanNoClose true rest
    else if c = '"' then false
    else scanNoClose false rest

/-- Claim C8 hypothesis: the characters following a string literal opening
boundary contain no unescaped closing boundary. -/
def noUnescapedClosing (cs : List Char) : Bool := scanNoClose false cs

/-- Advancing the cursor drops (at most) the head of the remaining input. -/
theorem advCur_rem (cur : Cur) : (advCur cur).rem = cur.rem.drop 1 := by
  rcases cur with ⟨rem, p, l, c⟩
  cases rem with
  | nil => rfl
  | cons ch rest =>
    by_cases h : ch = '\n' <;> simp [advCur, h]

/-- `readWhileGo` leaves exactly the `dropWhile` suffix in the cursor (when
invoked in sync with the cursor, as `readWhile` does). -/
theorem readWhileGo_rem (p : Char → Bool) :
    ∀ (l : List Char) (cur : Cur), cur.rem = l →
      (readWhileGo p l cur).2.rem = l.dropWhile p := by
  intro l
  induction l with
  | nil =>
    intro cur h
    simp [readWhileGo]
    exact h
  | cons c rest ih =>
    intro cur h
    by_cases hp : p c
    · have hadv : (advCur cur).rem = rest := by
        rw [advCur_rem, h]
        rfl
      simp [readWhileGo, hp, List.dropWhile_cons, ih _ hadv]
    · simp [readWhileGo, hp, List.dropWhile_cons, h]

/-- `readWhile` leaves exactly the `dropWhile` suffix in the cursor. -/
theorem readWhile_rem (p : Char → Bool) (cur : Cur) :
    (readWhile p cur).2.rem = cur.rem.dropWhile p :=
  readWhileGo_rem p cur.rem cur rfl

/-- The remaining input after skipping a comment line. -/
theorem skipRestOfLine_rem (cur : Cur) :
    (skipRestOfLine cur).rem = (cur.rem.dropWhile Matchers.isNotEOL).drop 1 := by
  unfold skipRestOfLine
  rw [advCur_rem, readWhile_rem]

/-- When `readNextTokenF` signals end of input, the resulting cursor has
exhausted the input. -/
theorem readNextTokenF_none_rem :
    ∀ (f : Nat) (cur cur1 : Cur), readNextTokenF f cur = .ok (none, cur1) → cur1.rem = [] := by
  intro f
  induction f with
  | zero =>
    intro cur cur1 h
    simp [readNextTokenF] at h
  | succ f ih =>
    intro cur cur1 h
    rw [readNextTokenF] at h
    split at h
    · simp only [Except.ok.injEq, Prod.mk.injEq] at h
      obtain ⟨-, h2⟩ := h
      subst h2
      assumption
    · split at h
      · exact ih _ _ h
      · split at h
        · simp_all
        · split at h
          · simp_all
          · split at h
            · dsimp only at h
              split at h
              · simp_all
              · simp_all
            · split at h
              · simp_all
              · split at h
                · simp_all
                · simp_all

/-- `readNextToken` on an end-of-input signal leaves an exhausted cursor. -/
theorem readNextToken_none_rem (cur cur1 : Cur)
    (h : readNextToken cur = .ok (none, cur1)) : cur1.rem = [] :=
  readNextTokenF_none_rem _ _ _ h

/-- `readNextToken` on an exhausted cursor signals end of input without moving. -/
theorem readNextToken_nil (cur : Cur) (h : cur.rem = []) :
    readNextToken cur = .ok (none, cur) := by
  rcases cur with ⟨rem, p, l, c⟩
  simp only at h
  subst h
  rfl

/-- Dropping leading whitespace preserves the whitespace-and-comments-only
property. -/
theorem wsCommentOnly_dropWhile {cs : List Char} (h : wsCommentOnly cs = true) :
    wsCommentOnly (cs.dropWhile Matchers.isWhiteSpace) = true := by
  induction cs with
  | nil => simpa using h
  | cons c rest ih =>
    rw [wsCommentOnly] at h
    by_cases hc : Matchers.isWhiteSpace c
    · rw [if_pos hc] at h
      rw [List.dropWhile_cons_of_pos hc]
      exact ih h
    · rw [List.dropWhile_cons_of_neg hc]
      rw [wsCommentOnly]
      rw [if_neg hc]
      rw [if_neg hc] at h
      exact h

/-- In a whitespace-and-comments-only document, the first non-whitespace
character (if any) starts a comment, and the text after its line is again
whitespace-and-comments-only. -/
theorem wsCommentOnly_head {cs : List Char} {c : Char} {tl : List Char}
    (h : wsCommentOnly cs = true)
    (hd : cs.dropWhile Matchers.isWhiteSpace = c :: tl) :
    Matchers.isComment c = true ∧ wsCommentOnly (skipLineChars tl) = true := by
  induction cs with
  | nil => simp at hd
  | cons c0 rest ih =>
    rw [wsCommentOnly] at h
    by_cases hc : Matchers.isWhiteSpace c0
    · rw [if_pos hc] at h
      rw [List.dropWhile_cons_of_pos hc] at hd
      exact ih h hd
    · rw [List.dropWhile_cons_of_neg hc] at hd
      rw [if_neg hc] at h
      injection hd with h1 h2
      subst h1
      subst h2
      by_cases hcm : Matchers.isComment c0
      · rw [if_pos hcm] at h
        exact ⟨hcm, h⟩
      · rw [if_neg hcm] at h
        simp at h

/-- On a whitespace-and-comments-only document, `readNextTokenF` (with fuel
exceeding the remaining length) signals end of input rather than producing a
token or failing. -/
theorem wsco_readNextTokenF :
    ∀ (f : Nat) (cur : Cur), cur.rem.length < f → wsCommentOnly cur.rem = true →
      ∃ cur1, readNextTokenF f cur = .ok (none, cur1) := by
  intro f
  induction f with
  | zero =>
    intro cur hlen hws
    omega
  | succ f ih =>
    intro cur hlen hws
    have hrw : (readWhile Matchers.isWhiteSpace cur).2.rem =
        cur.rem.dropWhile Matchers.isWhiteSpace := readWhile_rem _ _
    rw [readNextTokenF]
    dsimp only
    cases hd : (readWhile Matchers.isWhiteSpace cur).2.rem with
    | nil =>
      exact ⟨(readWhile Matchers.isWhiteSpace cur).2, rfl⟩
    | cons c tl =>
      have hdw : cur.rem.dropWhile Matchers.isWhiteSpace = c :: tl := by
        rw [← hrw]
        exact hd
      obtain ⟨hcm, hws2⟩ := wsCommentOnly_head hws hdw
      have hceq : c = '#' := by
        simpa [Matchers.isComment] using hcm
      have hcnot : Matchers.isNotEOL c = true := by
        rw [hceq]
        decide
      dsimp only
      rw [if_pos hcm]
      have hrem : (skipRestOfLine (readWhile Matchers.isWhiteSpace cur).2).rem =
          skipLineChars tl := by
        rw [skipRestOfLine_rem, hd, List.dropWhile_cons_of_pos hcnot]
        rfl
      apply ih
      · rw [hrem]
        have h2 : (skipLineChars tl).length ≤ tl.length := by
          have := dropWhile_length_le Matchers.isNotEOL tl
          simp [skipLineChars, List.length_drop]
          omega
        have h3 : (c :: tl).length ≤ cur.rem.length := by
          rw [← hdw]
          exact dropWhile_length_le _ _
        simp at h3
        omega
      · rw [hrem]
        exact hws2

/-- On a whitespace-and-comments-only document, `readNextToken` signals end of
input. -/
theorem wsco_readNextToken (cur : Cur) (h : wsCommentOnly cur.rem = true) :
    ∃ cur1, readNextToken cur = .ok (none, cur1) :=
  wsco_readNextTokenF _ cur (Nat.lt_succ_self _) h

/-- A successful `peek` stores the produced token in the lookahead cache. -/
theorem peekL_ok_cache {s : LS} {t : Option Tok} {s1 : LS}
    (h : peekL s = .ok (t, s1)) : s1.cache = t := by
  unfold peekL at h
  cases hc : s.cache with
  | some tok =>
    rw [hc] at h
    simp only [Except.ok.injEq, Prod.mk.injEq] at h
    rw [← h.2, hc, h.1]
  | none =>
    rw [hc] at h
    cases hr : readNextToken s.cur with
    | ok pr =>
      rw [hr] at h
      simp only [Except.ok.injEq, Prod.mk.injEq] at h
      rw [← h.2, ← h.1]
    | error e =>
      rw [hr] at h
      simp at h

/-- A successful `peek` of the end marker can only come from an empty cache
and an exhausted reader. -/
theorem peekL_ok_none {s : LS} {s1 : LS}
    (h : peekL s = .ok (none, s1)) :
    s.cache = none ∧ readNextToken s.cur = .ok (none, s1.cur) ∧ s1 = ⟨none, s1.cur⟩ ∧
      s1.cur.rem = [] := by
  unfold peekL at h
  cases hc : s.cache with
  | some tok =>
    rw [hc] at h
    simp at h
  | none =>
    rw [hc] at h
    cases hr : readNextToken s.cur with
    | ok pr =>
      obtain ⟨ot, cur2⟩ := pr
      rw [hr] at h
      simp only [Except.ok.injEq, Prod.mk.injEq] at h
      obtain ⟨h1, h2⟩ := h
      subst h1
      subst h2
      exact ⟨rfl, rfl, rfl, readNextToken_none_rem _ _ hr⟩
    | error e =>
      rw [hr] at h
      simp at h

end Luthor

section Claims

open Luthor Parsicle

/-- Claim C1 (code bug in `parse()`): the claimed grammar
`program := expression (";" expression)* [";"]` is NOT what `parse()`
implements.  The loop pushes the next expression BEFORE consuming a
separator, so `"1; 2"` — two expressions separated by `;` — aborts with a
`SyntaxError` at the `;`, while the separator-less `"1 2"` and the shifted
form `"1 2; 3"` are accepted. -/
theorem C1_parse_loop_misplaces_separator :
    runParse "1; 2" =
      .error (.ill 1 2
        ("Unexpected token: \x7b\n  \"type\": \"punc\",\n  \"value\": \";\"\n\x7d")) ∧
    runParse "1 2" = .ok [Node.tok (Tok.num (mkRat 1 1)), Node.tok (Tok.num (mkRat 2 1))] ∧
    runParse "1 2; 3" =
      .ok [Node.tok (Tok.num (mkRat 1 1)), Node.tok (Tok.num (mkRat 2 1)),
        Node.tok (Tok.num (mkRat 3 1))] :=
  ⟨rfl, rfl, rfl⟩

/-- Claim C2 (code bug in string lexing): `readNextToken` consumes the opening
boundary of a string literal and `readString` then unconditionally consumes
one more character, so the first content character is dropped: lexing
`"abc"` yields the token value `bc`, not `abc` as the claim states. -/
theorem C2_string_token_drops_first_char :
    tokenize "\"abc\"" = .ok [Tok.str "bc"] ∧ "bc" ≠ "abc" :=
  ⟨rfl, by decide⟩

/-- Claim C3 (confirmed): parsing `rule foo(a, b) { a + b }` yields a rule
node named `"foo"` whose parameter list holds exactly the identifiers `a`, `b`
in declaration order (stored as the identifier tokens, whose value strings are
`["a", "b"]`), and whose single-statement body is the `+` expression itself,
not a `Block` wrapper. -/
theorem C3_rule_declaration_shape :
    runParse "rule foo(a, b) \x7b a + b \x7d" =
      .ok [Node.rule (some "foo") [Node.tok (Tok.id "a"), Node.tok (Tok.id "b")]
        (Node.binE "+" (Node.tok (Tok.id "a")) (Node.tok (Tok.id "b")))] ∧
    identValues [Node.tok (Tok.id "a"), Node.tok (Tok.id "b")] = ["a", "b"] :=
  ⟨rfl, rfl⟩

/-- Claim C4 counterexample: lexing `3.14.15` does NOT produce a separate `.`
token after `3.14` — `.` is neither punctuation nor an operator character, so
tokenization fails with an "Illegal character" syntax error at the second dot
(line 1, column 4), contradicting the claim that tokenization does not fail. -/
theorem C4_second_dot_is_illegal_character :
    tokenize "3.14.15" = .error (.ill 1 4 "Illegal character at this position: .") :=
  rfl

/-- Claim C4, amended: lexing `3.14` yields the single number token `3.14`
(`157/50` exactly); on `3.14.15` the number scan stops at the second dot
without consuming it, yielding `3.14` with `.15` left in the input, and the
next tokenization step fails with an "Illegal character" `SyntaxError` at the
second dot rather than producing a `.` token. -/
theorem C4_number_lexing_amended :
    tokenize "3.14" = .ok [Tok.num (mkRat 157 50)] ∧
    readNextToken (mkCur "3.14.15") =
      .ok (some (Tok.num (mkRat 157 50)), ⟨".15".data, 4, 1, 4⟩) ∧
    tokenize "3.14.15" = .error (.ill 1 4 "Illegal character at this position: .") :=
  ⟨rfl, rfl, rfl⟩

/-- Claim C5 (code bug in `discrete()`): on every document consisting solely
of whitespace and `#`-comments (the empty document included), `parse()`
neither returns an empty sequence nor raises the repository `SyntaxError`:
the leading `expression()` reaches `Types.isOneOfType(current, ...)` with the
`null` end marker and reading `null.type` raises a JavaScript `TypeError`. -/
theorem C5_ws_comment_only_raises_type_error (f : Nat) (cur : Cur)
    (h : wsCommentOnly cur.rem = true) :
    parseP (f + 2) ⟨none, cur⟩ = .error (.typeErr nullTypeMsg) := by
  obtain ⟨cur1, hrnt⟩ := wsco_readNextToken cur h
  have hpeek : peekL ⟨none, cur⟩ = .ok (none, ⟨none, cur1⟩) := by
    unfold peekL
    dsimp only
    rw [hrnt]
  simp [parseP, expressionP, discreteP, pm_bind, pm_pure, peekP, hpeek,
    checkTypeAndValue, liftE, isOneOfTypeE]

/-- Witness for claim C5: the whitespace-and-comment document
`" \t\n# only a comment"` satisfies the hypothesis and makes `parse()` raise
the `TypeError`. -/
theorem C5_witness :
    wsCommentOnly (mkCur " \t\n# only a comment").rem = true ∧
    parseP 2 (initLS " \t\n# only a comment") = .error (.typeErr nullTypeMsg) := by
  have hws : wsCommentOnly (mkCur " \t\n# only a comment").rem = true := by
    simp +decide [mkCur, wsCommentOnly, skipLineChars, Matchers.isWhiteSpace,
      Matchers.isComment, Matchers.isNotEOL]
  exact ⟨hws, C5_ws_comment_only_raises_type_error 0 _ hws⟩

/-- Claim C6 (confirmed): the binding-power table maps `=`→1, `||`→5, `&&`→10,
the comparisons →15, `+`/`-`→20, `*`/`/`/`%`→25; `binaryExpression` builds an
`assign` node exactly for `=` and a `binaryExpression` node otherwise; and the
precedence climber nests `1 + 2 * 3` as `BinaryExpr(+, 1, BinaryExpr(*, 2, 3))`
and `a = b + 1` as `Assign(a, BinaryExpr(+, b, 1))`. -/
theorem C6_precedence_climbing :
    PRECEDENCE "=" = some 1 ∧ PRECEDENCE "||" = some 5 ∧ PRECEDENCE "&&" = some 10 ∧
    PRECEDENCE "<" = some 15 ∧ PRECEDENCE ">" = some 15 ∧ PRECEDENCE "<=" = some 15 ∧
    PRECEDENCE ">=" = some 15 ∧ PRECEDENCE "==" = some 15 ∧ PRECEDENCE "!=" = some 15 ∧
    PRECEDENCE "+" = some 20 ∧ PRECEDENCE "-" = some 20 ∧
    PRECEDENCE "*" = some 25 ∧ PRECEDENCE "/" = some 25 ∧ PRECEDENCE "%" = some 25 ∧
    Nodes.binaryExpression "=" (Node.tok (Tok.id "a")) (Node.tok (Tok.id "b")) =
      Node.assign "=" (Node.tok (Tok.id "a")) (Node.tok (Tok.id "b")) ∧
    Nodes.binaryExpression "+" (Node.tok (Tok.id "a")) (Node.tok (Tok.id "b")) =
      Node.binE "+" (Node.tok (Tok.id "a")) (Node.tok (Tok.id "b")) ∧
    runParse "1 + 2 * 3" =
      .ok [Node.binE "+" (Node.tok (Tok.num (mkRat 1 1)))
        (Node.binE "*" (Node.tok (Tok.num (mkRat 2 1))) (Node.tok (Tok.num (mkRat 3 1))))] ∧
    runParse "a = b + 1" =
      .ok [Node.assign "=" (Node.tok (Tok.id "a"))
        (Node.binE "+" (Node.tok (Tok.id "b")) (Node.tok (Tok.num (mkRat 1 1))))] :=
  ⟨rfl, rfl, rfl, rfl, rfl, rfl, rfl, rfl, rfl, rfl, rfl, rfl, rfl, rfl, rfl, rfl, rfl, rfl⟩

/-- Claim C7 counterexample: parsing `rule foo {` fails with the
missing-argument-list `SyntaxError`, but at line 1 column 10 — one past the
`{`, which sits at column 9 of line 1 (columns are 0-based and the lexer has
already consumed the peeked token when `die` fires) — not at the position of
the `{` as the claim states. -/
theorem C7_error_is_past_the_brace :
    errLineCol (runParse "rule foo \x7b") = some (1, 10) ∧
    "rule foo \x7b".data.get? 9 = some '\x7b' ∧
    some ((1 : Nat), (10 : Nat)) ≠ some ((1 : Nat), (9 : Nat)) :=
  ⟨rfl, rfl, by decide⟩

/-- Claim C7, amended: parsing `rule foo {` fails with a `SyntaxError` whose
message references the missing argument list, reported at the cursor position
immediately after the `{` (line 1, column 10, the `{` itself being at column
9), and no tree is returned: the failure aborts the whole parse. -/
theorem C7_rule_missing_argument_list_amended :
    runParse "rule foo \x7b" =
      .error (.ill 1 10 "Missing argument list for rule declaration") :=
  rfl

/-- Claim C9 (confirmed): for every token-stream state whose `peek()`
succeeds, peeking again without an intervening `next()` returns the identical
token and leaves the state unchanged (one cached token of lookahead);
`next()` then returns the same token as the most recent `peek()` and empties
the cache; and `eof()` returns true exactly when `peek()` yields the `null`
end marker (with the same state effect as that `peek()`). -/
theorem C9_token_stream_lookahead_contract (s : LS) (t : Option Tok) (s1 : LS)
    (h : peekL s = .ok (t, s1)) :
    peekL s1 = .ok (t, s1) ∧
    nextL s1 = .ok (t, ⟨none, s1.cur⟩) ∧
    eofL s = .ok (decide (t = none), s1) := by
  have hcache : s1.cache = t := peekL_ok_cache h
  refine ⟨?_, ?_, ?_⟩
  · cases t with
    | some tok =>
      unfold peekL
      rw [hcache]
    | none =>
      obtain ⟨-, -, hs1, hrem⟩ := peekL_ok_none h
      rw [hs1]
      unfold peekL
      simp only
      rw [readNextToken_nil _ hrem]
  · cases t with
    | some tok =>
      unfold nextL
      rw [hcache]
    | none =>
      obtain ⟨-, -, hs1, hrem⟩ := peekL_ok_none h
      rw [hs1]
      unfold nextL
      simp only
      rw [readNextToken_nil _ hrem]
  · unfold eofL
    rw [h]

/-- Witness for claim C9: the contract instantiated on the concrete document
`"a"`, whose first `peek()` produces the identifier token `a` and caches it. -/
theorem C9_witness :
    peekL ⟨some (Tok.id "a"), ⟨[], 1, 1, 1⟩⟩ =
      .ok (some (Tok.id "a"), ⟨some (Tok.id "a"), ⟨[], 1, 1, 1⟩⟩) ∧
    nextL ⟨some (Tok.id "a"), ⟨[], 1, 1, 1⟩⟩ =
      .ok (some (Tok.id "a"), ⟨none, ⟨[], 1, 1, 1⟩⟩) ∧
    eofL (initLS "a") = .ok (false, ⟨some (Tok.id "a"), ⟨[], 1, 1, 1⟩⟩) :=
  C9_token_stream_lookahead_contract (initLS "a") (some (Tok.id "a"))
    ⟨some (Tok.id "a"), ⟨[], 1, 1, 1⟩⟩ rfl

/-- Claim C8 (code bug, same root cause as C2): the input `"\"x` satisfies the
claim hypothesis — after the opening boundary, the characters `\`, `"`, `x`
contain no unescaped closing boundary — yet the lexer does NOT exhaust the
input inside the string loop: the unconditional extra `next()` of `readString`
swallowed the backslash, so the loop breaks at the (escaped, per the claim)
quote, producing the string token `""` and then a separate identifier token
`x` from the input left over. -/
theorem C8_unterminated_string_escape_shift :
    noUnescapedClosing "\\\"x".data = true ∧
    tokenize "\"\\\"x" = .ok [Tok.str "", Tok.id "x"] :=
  ⟨rfl, rfl⟩

/-- Claim C10 (confirmed): no tree returned by `parse()` ever contains a
`bool` node — `Nodes.bool` is unreachable from `parse()` — and any expression
whose leading token is one of the keyword tokens `true`, `false`, `conform`
fails with an "Unexpected token" `SyntaxError` (at the cursor position after
that keyword was lexed, with the token rendered into the message). -/
theorem C10_bool_nodes_unreachable :
    (∀ (f : Nat) (s s1 : LS) (v : String),
        peekL s = .ok (some (Tok.kw v), s1) →
        (v = "true" ∨ v = "false" ∨ v = "conform") →
        expressionP (f + 2) s =
          .error (.ill s1.cur.line s1.cur.col
            ("Unexpected token: " ++ jsonTok (Tok.kw v)))) ∧
    (∀ (f : Nat) (s : LS) (r : List Node × LS),
        parseP f s = .ok r → boolFreeList r.1 = true) := by
  constructor
  · intro f s s1 v h hv
    have hcache : s1.cache = some (Tok.kw v) := peekL_ok_cache h
    have hpeek2 : peekL s1 = .ok (some (Tok.kw v), s1) := by
      unfold peekL
      rw [hcache]
    rcases hv with rfl | rfl | rfl <;>
      simp +decide [expressionP, discreteP, pm_bind, pm_pure, peekP, h, hpeek2,
        checkTypeAndValue, Tok.type, Tok.svalue, liftE, isOneOfTypeE,
        dieUnexpectedP, dieP, jsonTokOpt]
  · intro f s r h
    exact parseP_boolFree h

/-- Witness for claim C10: parsing the document `true` (leading keyword
token) raises the "Unexpected token" syntax error at line 1 column 4, and the
successfully parsed document `1` yields a bool-free tree. -/
theorem C10_witness :
    expressionP 2 (initLS "true") =
      .error (.ill 1 4 ("Unexpected token: " ++ jsonTok (Tok.kw "true"))) ∧
    boolFreeList [Node.tok (Tok.num (mkRat 1 1))] = true :=
  ⟨C10_bool_nodes_unreachable.1 0 (initLS "true")
      ⟨some (Tok.kw "true"), ⟨[], 4, 1, 4⟩⟩ "true" rfl (Or.inl rfl),
    C10_bool_nodes_unreachable.2 16 (initLS "1")
      ([Node.tok (Tok.num (mkRat 1 1))], ⟨none, ⟨[], 1, 1, 1⟩⟩) rfl⟩

end Claims
